import Mathlib

/-!
Verification of the clang-tidy orchestration core (ClangTidy.cpp).

This file gives a shallow embedding of the components of
src/clang-tidy/ClangTidy.cpp that the verified properties concern:

1. the fix application engine (class ErrorReporter: reportDiagnostic and
   Finish, together with the TotalFixes / AppliedFixes ledger);
2. the static-analyzer checker selection
   (ClangTidyASTConsumerFactory::getCheckersControlList) and the check
   inventory query (ClangTidyASTConsumerFactory::getCheckNames);
3. the analyzer path-diagnostic adapter
   (AnalyzerDiagnosticConsumer::FlushDiagnosticsImpl);
4. ClangTidyCheck::setName.

Machine details that live outside this repository (clang's Rewriter and
clang::tooling::Replacement::apply, the default severity argument of
ClangTidyContext::diag, PathDiagnostic flattening) are modelled from the
specification at their boundary; each such definition carries a doc
comment starting with: Modelled from the spec.
-/

namespace ClangTidy

/-- Severity levels of a diagnostic (DiagnosticIDs::Level as used by the
tool: Note for secondary messages, Warning/Error for primary ones). -/
inductive Level where
  | Error
  | Warning
  | Note
  | Remark
deriving DecidableEq, Repr

/-- One textual edit (clang::tooling::Replacement): file path, start
offset, length of the replaced range, and the replacement text. -/
structure Replacement where
  FilePath : String
  Offset : Nat
  Length : Nat
  ReplacementText : String
deriving DecidableEq, Repr

/-- One message of a finding (ClangTidyMessage): text plus its position.
An empty FilePath denotes the invalid/global location. -/
structure ClangTidyMessage where
  Message : String
  FilePath : String
  FileOffset : Nat
deriving DecidableEq, Repr

/-- One buffered finding (ClangTidyError): owning check name, primary
message, severity, the attached fix (the ordered sequence of Replacements
the fix loop of ErrorReporter::reportDiagnostic iterates), and the
secondary notes. -/
structure ClangTidyError where
  CheckName : String
  Message : ClangTidyMessage
  DiagLevel : Level
  Fix : List Replacement
  Notes : List ClangTidyMessage
deriving DecidableEq, Repr

/-- ErrorReporter::getLocation: an empty file path yields the invalid
SourceLocation (modelled as none); otherwise the pair of path and offset. -/
def getLocation (FilePath : String) (Offset : Nat) : Option (String × Nat) :=
  if FilePath = "" then none else some (FilePath, Offset)

/-- The llvm::StringRef::startswith predicate used by
getCheckersControlList, embedded as a character-list prefix test. -/
def startswith (S Pre : String) : Bool :=
  Pre.data.isPrefixOf S.data

/-- The fixed name prefix for analyzer-sourced findings
(static const char pointer AnalyzerCheckNamePrefix in ClangTidy.cpp). -/
def AnalyzerCheckNamePrefix : String := "clang-analyzer-"

/-- State of the clang Rewriter as visible at this core's boundary: the
edits accepted into the rewrite buffers so far, in acceptance order. -/
structure RewriteState where
  accepted : List Replacement
deriving DecidableEq, Repr

/-- Two half-open byte ranges overlap. -/
def rangesOverlap (o1 l1 o2 l2 : Nat) : Bool :=
  decide (o1 < o2 + l2) && decide (o2 < o1 + l1)

/-- Two Replacements conflict when they target the same file and their
half-open ranges overlap. -/
def conflictsWith (a b : Replacement) : Bool :=
  a.FilePath == b.FilePath &&
    rangesOverlap a.Offset a.Length b.Offset b.Length

/-- Modelled from the spec: the combined effect of the expression
Fix.isApplicable() and Fix.apply(Rewrite) on line 127 of ClangTidy.cpp.
Both functions live in clang proper (clang::tooling::Replacement and
clang::Rewriter), outside this repository; the spec fixes their boundary
behaviour in section 4.4: a candidate edit is applicable iff its range
does not overlap any already-accepted range in the same file (first-seen
wins), and an accepted edit joins the accepted set of the rewrite
buffers. Returns the success flag and the new rewriter state. -/
def applyFix (Rewrite : RewriteState) (Fix : Replacement) :
    Bool × RewriteState :=
  if Rewrite.accepted.any (fun a => conflictsWith a Fix) then
    (false, Rewrite)
  else
    (true, { accepted := Rewrite.accepted ++ [Fix] })

/-- State of an ErrorReporter: the ApplyFixes flag given to the
constructor, the two ledger counters, and the rewriter. -/
structure ErrorReporter where
  ApplyFixes : Bool
  TotalFixes : Nat
  AppliedFixes : Nat
  Rewrite : RewriteState
deriving DecidableEq, Repr

/-- The ErrorReporter constructor: counters start at zero, the rewriter
holds no accepted edits. -/
def ErrorReporter.init (ApplyFixes : Bool) : ErrorReporter :=
  { ApplyFixes := ApplyFixes
    TotalFixes := 0
    AppliedFixes := 0
    Rewrite := { accepted := [] } }

/-- One observable emission of the reporting stage: the primary diagnostic
line (with its fix-it hints), a companion fix-status note
(note_fixit_applied / note_fixit_failed), or a secondary note. -/
inductive OutputEntry where
  | diag (Loc : Option (String × Nat)) (DiagLevel : Level)
      (Message : String) (CheckName : String) (Hints : List Replacement)
  | fixNote (Loc : Option (String × Nat)) (applied : Bool)
  | note (Loc : Option (String × Nat)) (Message : String)
deriving DecidableEq, Repr

/-- Recognizer for the companion fix-status notes. -/
def OutputEntry.isFixStatusNote : OutputEntry → Bool
  | OutputEntry.fixNote _ _ => true
  | _ => false

/-- Location carried by an output entry. -/
def OutputEntry.entryLoc : OutputEntry → Option (String × Nat)
  | OutputEntry.diag Loc _ _ _ _ => Loc
  | OutputEntry.fixNote Loc _ => Loc
  | OutputEntry.note Loc _ => Loc

/-- True exactly for a fix-status note that reports success. -/
def OutputEntry.fixApplied : OutputEntry → Bool
  | OutputEntry.fixNote _ b => b
  | _ => false

/-- The fix loop inside ErrorReporter::reportDiagnostic: for every
Replacement of the diagnostic, attach a fix-it hint, increment TotalFixes,
and, only when ApplyFixes is set, attempt the edit, count a success into
AppliedFixes and record the pair of location and success flag into
FixLocations. -/
def ErrorReporter.processFixes :
    ErrorReporter → List (Option (String × Nat) × Bool) →
    List Replacement →
    ErrorReporter × List (Option (String × Nat) × Bool)
  | rep, FixLocations, [] => (rep, FixLocations)
  | rep, FixLocations, Fix :: Fixes =>
    let FixLoc := getLocation Fix.FilePath Fix.Offset
    let rep1 : ErrorReporter := { rep with TotalFixes := rep.TotalFixes + 1 }
    if rep1.ApplyFixes then
      let r := applyFix rep1.Rewrite Fix
      let rep2 : ErrorReporter :=
        { rep1 with
          Rewrite := r.2
          AppliedFixes := rep1.AppliedFixes + (if r.1 then 1 else 0) }
      ErrorReporter.processFixes rep2 (FixLocations ++ [(FixLoc, r.1)]) Fixes
    else
      ErrorReporter.processFixes rep1 FixLocations Fixes

/-- ErrorReporter::reportDiagnostic: emit the primary diagnostic with its
fix-it hints, run the fix loop, then emit one fix-status note per recorded
FixLocations entry, then emit the secondary notes. Returns the new
reporter state and the entries emitted for this diagnostic. -/
def ErrorReporter.reportDiagnostic (rep : ErrorReporter)
    (Error : ClangTidyError) : ErrorReporter × List OutputEntry :=
  let Loc := getLocation Error.Message.FilePath Error.Message.FileOffset
  let s := ErrorReporter.processFixes rep [] Error.Fix
  let out :=
    [OutputEntry.diag Loc Error.DiagLevel Error.Message.Message
        Error.CheckName Error.Fix]
      ++ s.2.map (fun p => OutputEntry.fixNote p.1 p.2)
      ++ Error.Notes.map
          (fun N => OutputEntry.note (getLocation N.FilePath N.FileOffset)
            N.Message)
  (s.1, out)

/-- The reporting loop of handleErrors: feed every buffered error to
reportDiagnostic in order, accumulating emitted output. -/
def ErrorReporter.run :
    ErrorReporter → List OutputEntry → List ClangTidyError →
    ErrorReporter × List OutputEntry
  | rep, out, [] => (rep, out)
  | rep, out, Error :: Errors =>
    let r := ErrorReporter.reportDiagnostic rep Error
    ErrorReporter.run r.1 (out ++ r.2) Errors

/-- handleErrors: construct an ErrorReporter with the given Fix flag and
report every error through it (Finish is modelled separately because it
needs the file system). -/
def handleErrors (Errors : List ClangTidyError) (Fix : Bool) :
    ErrorReporter × List OutputEntry :=
  ErrorReporter.run (ErrorReporter.init Fix) [] Errors

/-- Splice a replacement into a file content: keep the first Offset
characters, insert the text, drop the replaced range. -/
def spliceStr (content : String) (Offset Length : Nat) (Text : String) :
    String :=
  String.mk (content.data.take Offset ++ Text.data
    ++ content.data.drop (Offset + Length))

/-- Modelled from the spec: Rewriter::overwriteChangedFiles, which lives
in clang proper. Section 4.4 of the spec fixes its boundary behaviour:
for each file, the accepted Replacements (non-overlapping by
construction) are applied to the original content and the file is
overwritten. Edits are spliced from the highest offset down so earlier
offsets stay valid. -/
def overwriteChangedFiles (Rewrite : RewriteState)
    (fs : String → String) : String → String :=
  fun path =>
    let edits := Rewrite.accepted.filter (fun r => r.FilePath == path)
    let edits := edits.mergeSort (fun a b => decide (b.Offset ≤ a.Offset))
    edits.foldl
      (fun content r => spliceStr content r.Offset r.Length r.ReplacementText)
      (fs path)

/-- Result of ErrorReporter::Finish: the file system afterwards and the
optional one-line summary, modelled as the pair of the two printed
counters (AppliedFixes, TotalFixes). -/
structure FinishResult where
  fs : String → String
  summary : Option (Nat × Nat)

/-- ErrorReporter::Finish: when ApplyFixes is set and TotalFixes is
positive, print the applied-fixes summary line and overwrite the changed
files; otherwise do nothing. -/
def ErrorReporter.Finish (rep : ErrorReporter) (fs : String → String) :
    FinishResult :=
  if rep.ApplyFixes = true ∧ 0 < rep.TotalFixes then
    { fs := overwriteChangedFiles rep.Rewrite fs
      summary := some (rep.AppliedFixes, rep.TotalFixes) }
  else
    { fs := fs, summary := none }

/-- ClangTidyASTConsumerFactory::getCheckersControlList, parameterized by
the universe of known static analyzer checker names (the contents of
Checkers.inc, which is generated outside this repository) and by the
checks filter as a predicate on full check names. A first pass decides
whether any non-debug analyzer check is enabled; if so, the list holds
every checker that either belongs to the core category or is itself a
non-debug enabled checker. -/
def getCheckersControlList (StaticAnalyzerChecks : List String)
    (Filter : String → Bool) : List (String × Bool) :=
  let AnalyzerChecksEnabled := StaticAnalyzerChecks.any
    (fun CheckName =>
      !(startswith CheckName "debug") &&
        Filter (AnalyzerCheckNamePrefix ++ CheckName))
  if AnalyzerChecksEnabled then
    (StaticAnalyzerChecks.filter
      (fun CheckName =>
        startswith CheckName "core" ||
          (!(startswith CheckName "debug") &&
            Filter (AnalyzerCheckNamePrefix ++ CheckName)))).map
      (fun CheckName => (CheckName, true))
  else
    []

/-- ClangTidyASTConsumerFactory::getCheckNames, parameterized by the
registered factory names (in registry iteration order), the analyzer
checker universe and the filter: collect the enabled factory names, append
the analyzer-prefixed names of the checkers control list, and sort
(std::sort with lexicographic string comparison; since equal strings are
identical the result does not depend on the sort being stable). -/
def getCheckNames (CheckFactories : List String)
    (StaticAnalyzerChecks : List String) (Filter : String → Bool) :
    List String :=
  let CheckNames := CheckFactories.filter (fun Name => Filter Name)
  let CheckNames := CheckNames ++
    (getCheckersControlList StaticAnalyzerChecks Filter).map
      (fun AnalyzerCheck => AnalyzerCheckNamePrefix ++ AnalyzerCheck.1)
  CheckNames.mergeSort (fun a b => decide (a ≤ b))

/-- One flattened step of an analyzer path diagnostic: its location, its
text and its highlighted source ranges (DiagPiece getLocation, getString
and getRanges). -/
structure PathDiagnosticPiece where
  Loc : Option (String × Nat)
  Str : String
  Ranges : List (Nat × Nat)
deriving DecidableEq, Repr

/-- One analyzer path diagnostic as consumed by FlushDiagnosticsImpl:
checker identifier, primary location, short description, the ranges of
the last path piece (attached to the primary diagnostic by the source)
and the flattened path steps. Modelled from the spec: clang's
ento::PathDiagnostic and its path-flattening live outside this
repository; the spec (section 6) fixes the consumed shape as checker id,
primary location plus source ranges, short description, and an ordered
list of path steps, which FlattenedPath holds in path order. -/
structure PathDiagnostic where
  CheckName : String
  Loc : Option (String × Nat)
  ShortDescription : String
  BackRanges : List (Nat × Nat)
  FlattenedPath : List PathDiagnosticPiece
deriving DecidableEq, Repr

/-- One diagnostic entering the ClangTidyContext through its diag entry
point, together with the source ranges streamed onto it. -/
structure ContextDiag where
  CheckName : String
  Loc : Option (String × Nat)
  Message : String
  DiagLevel : Level
  Ranges : List (Nat × Nat)
deriving DecidableEq, Repr

/-- AnalyzerDiagnosticConsumer::FlushDiagnosticsImpl: for every path
diagnostic, emit its primary finding under the analyzer-prefixed checker
name (with the last path piece's ranges), then one note per flattened
path step. The primary Context.diag call omits the severity argument;
its default, declared in ClangTidyDiagnosticConsumer.h (not under src/),
is modelled from the spec as Warning. -/
def FlushDiagnosticsImpl (Diags : List PathDiagnostic) :
    List ContextDiag :=
  Diags.foldl
    (fun out PD =>
      let CheckName := AnalyzerCheckNamePrefix ++ PD.CheckName
      let out := out ++
        [{ CheckName := CheckName
           Loc := PD.Loc
           Message := PD.ShortDescription
           DiagLevel := Level.Warning
           Ranges := PD.BackRanges }]
      PD.FlattenedPath.foldl
        (fun out DiagPiece =>
          out ++
            [{ CheckName := CheckName
               Loc := DiagPiece.Loc
               Message := DiagPiece.Str
               DiagLevel := Level.Note
               Ranges := DiagPiece.Ranges }])
        out)
    []

/-- The emission the spec prescribes for one path diagnostic: one primary
Diagnostic of severity Warning whose message is the short description and
whose check name is the analyzer prefix followed by the checker id,
followed by one Note per flattened path step, in path order. -/
def analyzerEmission (PD : PathDiagnostic) : List ContextDiag :=
  { CheckName := AnalyzerCheckNamePrefix ++ PD.CheckName
    Loc := PD.Loc
    Message := PD.ShortDescription
    DiagLevel := Level.Warning
    Ranges := PD.BackRanges }
    :: PD.FlattenedPath.map
      (fun p =>
        { CheckName := AnalyzerCheckNamePrefix ++ PD.CheckName
          Loc := p.Loc
          Message := p.Str
          DiagLevel := Level.Note
          Ranges := p.Ranges })

/-- A check instance as far as naming is concerned (ClangTidyCheck's
CheckName member; a default-constructed instance has the empty name). -/
structure ClangTidyCheck where
  CheckName : String
deriving DecidableEq, Repr

/-- ClangTidyCheck::setName: the code asserts that the current name is
empty and then stores the new name. The assertion is modelled as failure:
the result is none when the current name is non-empty. -/
def ClangTidyCheck.setName (Check : ClangTidyCheck) (Name : String) :
    Option ClangTidyCheck :=
  if Check.CheckName = "" then some { CheckName := Name } else none

/-- Total number of Replacements attached to a list of errors. -/
def totalFixCount (Errors : List ClangTidyError) : Nat :=
  (Errors.map (fun E => E.Fix.length)).sum

/-- A sample edit covering byte range 10 to 20 of file a.cc. -/
def sampleFix1 : Replacement :=
  { FilePath := "a.cc", Offset := 10, Length := 10,
    ReplacementText := "first" }

/-- A sample edit covering byte range 15 to 25 of file a.cc, conflicting
with sampleFix1. -/
def sampleFix2 : Replacement :=
  { FilePath := "a.cc", Offset := 15, Length := 10,
    ReplacementText := "second" }

/-- A sample diagnostic carrying the first sample edit. -/
def sampleError1 : ClangTidyError :=
  { CheckName := "test-check-1"
    Message :=
      { Message := "first finding", FilePath := "a.cc", FileOffset := 0 }
    DiagLevel := Level.Warning
    Fix := [sampleFix1]
    Notes := [] }

/-- A sample diagnostic carrying the second sample edit. -/
def sampleError2 : ClangTidyError :=
  { CheckName := "test-check-2"
    Message :=
      { Message := "second finding", FilePath := "a.cc", FileOffset := 5 }
    DiagLevel := Level.Warning
    Fix := [sampleFix2]
    Notes := [] }

/-- A sample analyzer checker universe with one core checker and one
path-sensitive checker. -/
def sampleUniverse : List String := ["core.Null", "unix.API"]

/-- A sample filter enabling only the prefixed unix.API checker. -/
def sampleFilter : String → Bool :=
  fun Name => Name == "clang-analyzer-unix.API"

/-- A sample analyzer checker universe holding only a debug checker. -/
def debugUniverse : List String := ["debug.DumpCFG"]

/-- The filter that enables every name. -/
def allowAll : String → Bool := fun _ => true

/-!
Helper lemmas about the fix loop (ErrorReporter::processFixes).
-/

theorem processFixes_flag (Fixes : List Replacement) :
    ∀ (rep : ErrorReporter) (acc : List (Option (String × Nat) × Bool)),
      ((ErrorReporter.processFixes rep acc Fixes).1).ApplyFixes
        = rep.ApplyFixes := by
  induction Fixes with
  | nil => intro rep acc; rfl
  | cons Fix Fixes ih =>
    intro rep acc
    by_cases h : rep.ApplyFixes = true <;>
      simp [ErrorReporter.processFixes, h, ih]

theorem processFixes_total (Fixes : List Replacement) :
    ∀ (rep : ErrorReporter) (acc : List (Option (String × Nat) × Bool)),
      ((ErrorReporter.processFixes rep acc Fixes).1).TotalFixes
        = rep.TotalFixes + Fixes.length := by
  induction Fixes with
  | nil => intro rep acc; simp [ErrorReporter.processFixes]
  | cons Fix Fixes ih =>
    intro rep acc
    by_cases h : rep.ApplyFixes = true <;>
      simp [ErrorReporter.processFixes, h, ih] <;> omega

theorem processFixes_dry (Fixes : List Replacement) :
    ∀ (rep : ErrorReporter) (acc : List (Option (String × Nat) × Bool)),
      rep.ApplyFixes = false →
      ErrorReporter.processFixes rep acc Fixes
        = ({ rep with TotalFixes := rep.TotalFixes + Fixes.length }, acc) := by
  induction Fixes with
  | nil => intro rep acc h; rfl
  | cons Fix Fixes ih =>
    intro rep acc h
    obtain ⟨A, T, P, RW⟩ := rep
    simp only [ErrorReporter.ApplyFixes] at h
    subst h
    simp only [ErrorReporter.processFixes, Bool.false_eq_true, if_false]
    rw [ih ⟨false, T + 1, P, RW⟩ acc rfl]
    have harith : T + 1 + Fixes.length = T + (Fixes.length + 1) := by omega
    simp only [ErrorReporter.TotalFixes, harith]
    rfl

theorem processFixes_locs (Fixes : List Replacement) :
    ∀ (rep : ErrorReporter) (acc : List (Option (String × Nat) × Bool)),
      rep.ApplyFixes = true →
      ((ErrorReporter.processFixes rep acc Fixes).2).map Prod.fst
        = acc.map Prod.fst
          ++ Fixes.map (fun F => getLocation F.FilePath F.Offset) := by
  induction Fixes with
  | nil => intro rep acc h; simp [ErrorReporter.processFixes]
  | cons Fix Fixes ih =>
    intro rep acc h
    obtain ⟨A, T, P, RW⟩ := rep
    simp only [ErrorReporter.ApplyFixes] at h
    subst h
    simp only [ErrorReporter.processFixes, eq_self_iff_true, if_true]
    rw [ih ⟨true, T + 1,
          P + (if (applyFix RW Fix).1 = true then 1 else 0),
          (applyFix RW Fix).2⟩
        (acc ++ [(getLocation Fix.FilePath Fix.Offset, (applyFix RW Fix).1)])
        rfl]
    simp

theorem processFixes_growth (Fixes : List Replacement) :
    ∀ (rep : ErrorReporter) (acc : List (Option (String × Nat) × Bool)),
      ∃ extra : List Replacement,
        ((ErrorReporter.processFixes rep acc Fixes).1).Rewrite.accepted
            = rep.Rewrite.accepted ++ extra
        ∧ ((ErrorReporter.processFixes rep acc Fixes).1).AppliedFixes
            = rep.AppliedFixes + extra.length
        ∧ extra.length ≤ Fixes.length := by
  induction Fixes with
  | nil => intro rep acc; exact ⟨[], by simp [ErrorReporter.processFixes]⟩
  | cons Fix Fixes ih =>
    intro rep acc
    obtain ⟨A, T, P, RW⟩ := rep
    obtain ⟨ACC⟩ := RW
    cases A with
    | false =>
      rw [processFixes_dry _ _ _ rfl]
      exact ⟨[], by simp⟩
    | true =>
      by_cases hs : ACC.any (fun a => conflictsWith a Fix) = true
      · obtain ⟨extra, h1, h2, h3⟩ :=
          ih ⟨true, T + 1, P, ⟨ACC⟩⟩
            (acc ++ [(getLocation Fix.FilePath Fix.Offset, false)])
        refine ⟨extra, ?_, ?_, ?_⟩
        · simp only [ErrorReporter.processFixes, eq_self_iff_true, if_true, applyFix, hs,
            if_true, Bool.false_eq_true, if_false, Nat.add_zero]
          simpa using h1
        · simp only [ErrorReporter.processFixes, eq_self_iff_true, if_true, applyFix, hs,
            if_true, Bool.false_eq_true, if_false, Nat.add_zero]
          simpa using h2
        · simpa using Nat.le_succ_of_le h3
      · obtain ⟨extra, h1, h2, h3⟩ :=
          ih ⟨true, T + 1, P + 1, ⟨ACC ++ [Fix]⟩⟩
            (acc ++ [(getLocation Fix.FilePath Fix.Offset, true)])
        refine ⟨Fix :: extra, ?_, ?_, ?_⟩
        · simp only [ErrorReporter.processFixes, eq_self_iff_true, if_true, applyFix, hs,
            Bool.false_eq_true, if_false, if_true]
          simp only [ErrorReporter.Rewrite, ErrorReporter.AppliedFixes,
            RewriteState.accepted] at h1 ⊢
          rw [h1]
          simp
        · simp only [ErrorReporter.processFixes, eq_self_iff_true, if_true, applyFix, hs,
            Bool.false_eq_true, if_false, if_true]
          simp only [ErrorReporter.Rewrite, ErrorReporter.AppliedFixes,
            RewriteState.accepted] at h2 ⊢
          rw [h2]
          simp
          omega
        · simpa using Nat.succ_le_succ h3

theorem processFixes_applied_le (Fixes : List Replacement) :
    ∀ (rep : ErrorReporter) (acc : List (Option (String × Nat) × Bool)),
      ((ErrorReporter.processFixes rep acc Fixes).1).AppliedFixes
        ≤ rep.AppliedFixes + Fixes.length := by
  intro rep acc
  obtain ⟨extra, _, h2, h3⟩ := processFixes_growth Fixes rep acc
  omega

theorem processFixes_pairwise (Fixes : List Replacement) :
    ∀ (rep : ErrorReporter) (acc : List (Option (String × Nat) × Bool)),
      List.Pairwise (fun a b => conflictsWith a b = false)
        rep.Rewrite.accepted →
      List.Pairwise (fun a b => conflictsWith a b = false)
        ((ErrorReporter.processFixes rep acc Fixes).1).Rewrite.accepted := by
  induction Fixes with
  | nil => intro rep acc hp; exact hp
  | cons Fix Fixes ih =>
    intro rep acc hp
    obtain ⟨A, T, P, RW⟩ := rep
    obtain ⟨ACC⟩ := RW
    cases A with
    | false =>
      rw [processFixes_dry _ _ _ rfl]
      exact hp
    | true =>
      by_cases hs : ACC.any (fun a => conflictsWith a Fix) = true
      · simp only [ErrorReporter.processFixes, eq_self_iff_true, if_true,
          applyFix, hs, Bool.false_eq_true, if_false, Nat.add_zero]
        exact ih ⟨true, T + 1, P, ⟨ACC⟩⟩ _ hp
      · simp only [ErrorReporter.processFixes, eq_self_iff_true, if_true,
          applyFix, hs, Bool.false_eq_true, if_false]
        apply ih ⟨true, T + 1, P + 1, ⟨ACC ++ [Fix]⟩⟩
        have hs2 : ACC.any (fun a => conflictsWith a Fix) = false := by
          simpa using hs
        have hall := List.any_eq_false.mp hs2
        rw [List.pairwise_append]
        refine ⟨hp, List.pairwise_singleton _ _, ?_⟩
        intro a ha b hb
        have hb2 : b = Fix := by simpa using hb
        subst hb2
        cases hcf : conflictsWith a b
        · rfl
        · exact absurd hcf (hall a ha)

theorem processFixes_applied_notes (Fixes : List Replacement) :
    ∀ (rep : ErrorReporter) (acc : List (Option (String × Nat) × Bool)),
      ((ErrorReporter.processFixes rep acc Fixes).1).AppliedFixes
          + (acc.filter (fun q => q.2)).length
        = rep.AppliedFixes
          + (((ErrorReporter.processFixes rep acc Fixes).2).filter
              (fun q => q.2)).length := by
  induction Fixes with
  | nil => intro rep acc; rfl
  | cons Fix Fixes ih =>
    intro rep acc
    obtain ⟨A, T, P, RW⟩ := rep
    obtain ⟨ACC⟩ := RW
    cases A with
    | false =>
      rw [processFixes_dry _ _ _ rfl]
    | true =>
      by_cases hs : ACC.any (fun a => conflictsWith a Fix) = true
      · have hrec := ih ⟨true, T + 1, P, ⟨ACC⟩⟩
          (acc ++ [(getLocation Fix.FilePath Fix.Offset, false)])
        simp only [ErrorReporter.processFixes, eq_self_iff_true, if_true,
          applyFix, hs, Bool.false_eq_true, if_false, Nat.add_zero]
        simp only [List.filter_append, List.length_append,
          ErrorReporter.AppliedFixes] at hrec
        simp at hrec
        omega
      · have hrec := ih ⟨true, T + 1, P + 1, ⟨ACC ++ [Fix]⟩⟩
          (acc ++ [(getLocation Fix.FilePath Fix.Offset, true)])
        simp only [ErrorReporter.processFixes, eq_self_iff_true, if_true,
          applyFix, hs, Bool.false_eq_true, if_false]
        simp only [List.filter_append, List.length_append,
          ErrorReporter.AppliedFixes] at hrec
        simp at hrec
        omega

/-!
Helper lemmas about ErrorReporter::reportDiagnostic.
-/

theorem reportDiagnostic_state (rep : ErrorReporter)
    (Error : ClangTidyError) :
    (rep.reportDiagnostic Error).1
      = (ErrorReporter.processFixes rep [] Error.Fix).1 := rfl

theorem reportDiagnostic_out (rep : ErrorReporter) (Error : ClangTidyError) :
    (rep.reportDiagnostic Error).2
      = [OutputEntry.diag
            (getLocation Error.Message.FilePath Error.Message.FileOffset)
            Error.DiagLevel Error.Message.Message Error.CheckName Error.Fix]
          ++ ((ErrorReporter.processFixes rep [] Error.Fix).2).map
              (fun p => OutputEntry.fixNote p.1 p.2)
          ++ Error.Notes.map
              (fun N =>
                OutputEntry.note (getLocation N.FilePath N.FileOffset)
                  N.Message) := rfl

theorem isFixStatusNote_diag (Loc : Option (String × Nat))
    (DiagLevel : Level) (Message CheckName : String)
    (Hints : List Replacement) :
    OutputEntry.isFixStatusNote
      (OutputEntry.diag Loc DiagLevel Message CheckName Hints) = false := rfl

theorem isFixStatusNote_fixNote (Loc : Option (String × Nat)) (b : Bool) :
    OutputEntry.isFixStatusNote (OutputEntry.fixNote Loc b) = true := rfl

theorem isFixStatusNote_note (Loc : Option (String × Nat))
    (Message : String) :
    OutputEntry.isFixStatusNote (OutputEntry.note Loc Message) = false := rfl

theorem fixApplied_diag (Loc : Option (String × Nat)) (DiagLevel : Level)
    (Message CheckName : String) (Hints : List Replacement) :
    OutputEntry.fixApplied
      (OutputEntry.diag Loc DiagLevel Message CheckName Hints) = false := rfl

theorem fixApplied_fixNote (Loc : Option (String × Nat)) (b : Bool) :
    OutputEntry.fixApplied (OutputEntry.fixNote Loc b) = b := rfl

theorem fixApplied_note (Loc : Option (String × Nat)) (Message : String) :
    OutputEntry.fixApplied (OutputEntry.note Loc Message) = false := rfl

theorem entryLoc_fixNote (Loc : Option (String × Nat)) (b : Bool) :
    OutputEntry.entryLoc (OutputEntry.fixNote Loc b) = Loc := rfl

theorem reportDiagnostic_fixNotes (rep : ErrorReporter)
    (Error : ClangTidyError) :
    ((rep.reportDiagnostic Error).2).filter OutputEntry.isFixStatusNote
      = ((ErrorReporter.processFixes rep [] Error.Fix).2).map
          (fun p => OutputEntry.fixNote p.1 p.2) := by
  rw [reportDiagnostic_out]
  simp [List.filter_append, List.filter_map, Function.comp_def,
    isFixStatusNote_diag, isFixStatusNote_fixNote, isFixStatusNote_note]

theorem reportDiagnostic_applied_len (rep : ErrorReporter)
    (Error : ClangTidyError) :
    (((rep.reportDiagnostic Error).2).filter OutputEntry.fixApplied).length
      = (((ErrorReporter.processFixes rep [] Error.Fix).2).filter
          (fun q => q.2)).length := by
  rw [reportDiagnostic_out]
  simp [List.filter_append, List.filter_map, Function.comp_def,
    fixApplied_diag, fixApplied_fixNote, fixApplied_note]

/-!
Helper lemmas about the reporting loop (ErrorReporter::run) over a whole
error list.
-/

theorem run_flag (Errors : List ClangTidyError) :
    ∀ (rep : ErrorReporter) (out : List OutputEntry),
      ((ErrorReporter.run rep out Errors).1).ApplyFixes = rep.ApplyFixes := by
  induction Errors with
  | nil => intro rep out; rfl
  | cons Error Errors ih =>
    intro rep out
    simp only [ErrorReporter.run]
    rw [ih]
    exact processFixes_flag Error.Fix rep []

theorem run_total (Errors : List ClangTidyError) :
    ∀ (rep : ErrorReporter) (out : List OutputEntry),
      ((ErrorReporter.run rep out Errors).1).TotalFixes
        = rep.TotalFixes + totalFixCount Errors := by
  induction Errors with
  | nil => intro rep out; simp [totalFixCount, ErrorReporter.run]
  | cons Error Errors ih =>
    intro rep out
    simp only [ErrorReporter.run]
    rw [ih]
    have h1 : ((ErrorReporter.reportDiagnostic rep Error).1).TotalFixes
        = rep.TotalFixes + Error.Fix.length :=
      processFixes_total Error.Fix rep []
    rw [h1]
    simp only [totalFixCount, List.map_cons, List.sum_cons]
    omega

theorem run_dry_applied (Errors : List ClangTidyError) :
    ∀ (rep : ErrorReporter) (out : List OutputEntry),
      rep.ApplyFixes = false →
      ((ErrorReporter.run rep out Errors).1).AppliedFixes
        = rep.AppliedFixes := by
  induction Errors with
  | nil => intro rep out h; rfl
  | cons Error Errors ih =>
    intro rep out h
    simp only [ErrorReporter.run]
    have hstate : (ErrorReporter.reportDiagnostic rep Error).1
        = { rep with TotalFixes := rep.TotalFixes + Error.Fix.length } := by
      rw [reportDiagnostic_state, processFixes_dry _ _ _ h]
    rw [hstate]
    exact ih _ _ h

theorem run_growth (Errors : List ClangTidyError) :
    ∀ (rep : ErrorReporter) (out : List OutputEntry),
      ∃ extra : List Replacement,
        ((ErrorReporter.run rep out Errors).1).Rewrite.accepted
            = rep.Rewrite.accepted ++ extra
        ∧ ((ErrorReporter.run rep out Errors).1).AppliedFixes
            = rep.AppliedFixes + extra.length
        ∧ extra.length ≤ totalFixCount Errors := by
  induction Errors with
  | nil =>
    intro rep out
    exact ⟨[], by simp [ErrorReporter.run], by simp [ErrorReporter.run],
      by simp [totalFixCount]⟩
  | cons Error Errors ih =>
    intro rep out
    obtain ⟨e1, a1, b1, c1⟩ := processFixes_growth Error.Fix rep []
    obtain ⟨e2, a2, b2, c2⟩ :=
      ih (ErrorReporter.reportDiagnostic rep Error).1
        (out ++ (ErrorReporter.reportDiagnostic rep Error).2)
    refine ⟨e1 ++ e2, ?_, ?_, ?_⟩
    · simp only [ErrorReporter.run]
      rw [a2, reportDiagnostic_state, a1, List.append_assoc]
    · simp only [ErrorReporter.run]
      rw [b2, reportDiagnostic_state, b1]
      simp only [List.length_append]
      omega
    · simp only [List.length_append, totalFixCount, List.map_cons,
        List.sum_cons]
      have : totalFixCount Errors = (Errors.map (fun E => E.Fix.length)).sum
        := rfl
      omega

theorem run_applied_notes (Errors : List ClangTidyError) :
    ∀ (rep : ErrorReporter) (out : List OutputEntry),
      ((ErrorReporter.run rep out Errors).1).AppliedFixes
          + (out.filter OutputEntry.fixApplied).length
        = rep.AppliedFixes
          + (((ErrorReporter.run rep out Errors).2).filter
              OutputEntry.fixApplied).length := by
  induction Errors with
  | nil => intro rep out; rfl
  | cons Error Errors ih =>
    intro rep out
    simp only [ErrorReporter.run]
    have hrec := ih (ErrorReporter.reportDiagnostic rep Error).1
      (out ++ (ErrorReporter.reportDiagnostic rep Error).2)
    have hstep : ((ErrorReporter.reportDiagnostic rep Error).1).AppliedFixes
        = rep.AppliedFixes
          + (((ErrorReporter.reportDiagnostic rep Error).2).filter
              OutputEntry.fixApplied).length := by
      have h0 := processFixes_applied_notes Error.Fix rep []
      rw [reportDiagnostic_state, reportDiagnostic_applied_len]
      simpa using h0
    simp only [List.filter_append, List.length_append] at hrec
    omega

theorem run_pairwise (Errors : List ClangTidyError) :
    ∀ (rep : ErrorReporter) (out : List OutputEntry),
      List.Pairwise (fun a b => conflictsWith a b = false)
        rep.Rewrite.accepted →
      List.Pairwise (fun a b => conflictsWith a b = false)
        ((ErrorReporter.run rep out Errors).1).Rewrite.accepted := by
  induction Errors with
  | nil => intro rep out hp; exact hp
  | cons Error Errors ih =>
    intro rep out hp
    simp only [ErrorReporter.run]
    exact ih _ _ (processFixes_pairwise Error.Fix rep [] hp)

/-- A string starting with the core category name cannot also start with
the debug category name, since the two prefixes differ in their first
character. -/
theorem startswith_core_not_debug (s : String) :
    startswith s "core" = true → startswith s "debug" = false := by
  intro hc
  cases hd : startswith s "debug"
  · rfl
  · exfalso
    unfold startswith at hc hd
    rw [List.isPrefixOf_iff_prefix] at hc hd
    obtain ⟨t1, e1⟩ := hc
    obtain ⟨t2, e2⟩ := hd
    have hc4 : ("core" : String).data = ['c', 'o', 'r', 'e'] := rfl
    have hd5 : ("debug" : String).data = ['d', 'e', 'b', 'u', 'g'] := rfl
    rw [hc4] at e1
    rw [hd5] at e2
    have e3 := e1.trans e2.symm
    simp at e3

/-- C9: a check's name is assigned exactly once: setName succeeds exactly
when the current name is empty (the source asserts emptiness before the
assignment), so a once-set name is never overwritten. -/
theorem setName_once (Check : ClangTidyCheck) (Name : String) :
    (Check.CheckName = "" →
      Check.setName Name = some { CheckName := Name })
    ∧ (Check.CheckName ≠ "" → Check.setName Name = none) := by
  constructor
  · intro h
    simp [ClangTidyCheck.setName, h]
  · intro h
    simp [ClangTidyCheck.setName, h]

/-- C9 witness: setName on a freshly constructed check stores the name,
and setName on an already-named check fails (the modelled assertion). -/
theorem setName_once_witness :
    (ClangTidyCheck.setName { CheckName := "" } "llvm-namespace-comment"
        = some { CheckName := "llvm-namespace-comment" })
    ∧ (ClangTidyCheck.setName { CheckName := "llvm-namespace-comment" }
        "google-explicit-constructor" = none) := by
  constructor
  · exact (setName_once { CheckName := "" } "llvm-namespace-comment").1 rfl
  · exact (setName_once { CheckName := "llvm-namespace-comment" }
      "google-explicit-constructor").2 (by decide)

/-- C10: debug analyzer checkers are never included in the checkers
control list, and if the only universe checkers whose prefixed names pass
the filter are debug checkers, the control list stays empty (debug
checkers never count toward enabling the analyzer). -/
theorem debug_checkers_excluded (u : List String) (F : String → Bool) :
    (∀ p : String × Bool, p ∈ getCheckersControlList u F →
        startswith p.1 "debug" = false)
    ∧ ((∀ c, c ∈ u → F (AnalyzerCheckNamePrefix ++ c) = true →
          startswith c "debug" = true) →
        getCheckersControlList u F = []) := by
  constructor
  · intro p hp
    by_cases hE : u.any
        (fun CheckName =>
          !(startswith CheckName "debug") &&
            F (AnalyzerCheckNamePrefix ++ CheckName)) = true
    · have hlist : getCheckersControlList u F
          = (u.filter (fun CheckName =>
              startswith CheckName "core" ||
                (!(startswith CheckName "debug") &&
                  F (AnalyzerCheckNamePrefix ++ CheckName)))).map
              (fun CheckName => (CheckName, true)) := by
        simp [getCheckersControlList, hE]
      rw [hlist] at hp
      obtain ⟨c, hc, hpc⟩ := List.mem_map.mp hp
      have hcf := (List.mem_filter.mp hc).2
      simp only [Bool.or_eq_true, Bool.and_eq_true, Bool.not_eq_true'] at hcf
      subst hpc
      rcases hcf with hcore | ⟨hnd, _⟩
      · exact startswith_core_not_debug c hcore
      · exact hnd
    · have hE2 : u.any
          (fun CheckName =>
            !(startswith CheckName "debug") &&
              F (AnalyzerCheckNamePrefix ++ CheckName)) = false := by
        simpa using hE
      have hlist : getCheckersControlList u F = [] := by
        simp [getCheckersControlList, hE2]
      rw [hlist] at hp
      exact absurd hp (List.not_mem_nil p)
  · intro hdbg
    have hE2 : u.any
        (fun CheckName =>
          !(startswith CheckName "debug") &&
            F (AnalyzerCheckNamePrefix ++ CheckName)) = false := by
      rw [List.any_eq_false]
      intro c hc habs
      simp only [Bool.and_eq_true, Bool.not_eq_true'] at habs
      exact absurd (hdbg c hc habs.2) (by simp [habs.1])
    simp [getCheckersControlList, hE2]

/-- C10 witness: with a universe holding only the debug.DumpCFG checker
and a filter that enables everything, the control list is empty; and the
core.Null entry of a sample control list does not start with debug. -/
theorem debug_checkers_excluded_witness :
    getCheckersControlList debugUniverse allowAll = []
    ∧ startswith "core.Null" "debug" = false := by
  constructor
  · apply (debug_checkers_excluded debugUniverse allowAll).2
    intro c hc hF
    have hcval : c = "debug.DumpCFG" := by
      simpa [debugUniverse] using hc
    subst hcval
    decide
  · exact (debug_checkers_excluded sampleUniverse sampleFilter).1
      ("core.Null", true) (by decide)

/-- C3 counterexample: with a universe holding only debug.DumpCFG and the
filter that enables every name, the prefixed debug checker passes the
filter yet the checkers control list is empty, so enablement is not
equivalent to some analyzer-prefixed name passing the filter. -/
theorem analyzer_enable_iff_cex :
    ¬(getCheckersControlList debugUniverse allowAll ≠ [] ↔
        ∃ c, c ∈ debugUniverse
          ∧ allowAll (AnalyzerCheckNamePrefix ++ c) = true) := by
  intro hiff
  have hpass : ∃ c, c ∈ debugUniverse
      ∧ allowAll (AnalyzerCheckNamePrefix ++ c) = true :=
    ⟨"debug.DumpCFG", by decide, rfl⟩
  exact hiff.mpr hpass (by decide)

/-- C3 amended: the checkers control list is non-empty iff at least one
non-debug analyzer checker's prefixed name passes the filter; and
whenever the analyzer is enabled, every core-category checker of the
universe is in the list even if its own prefixed name does not pass the
filter. -/
theorem analyzer_enable_amended (u : List String) (F : String → Bool) :
    (getCheckersControlList u F ≠ [] ↔
      ∃ c, c ∈ u ∧ startswith c "debug" = false
        ∧ F (AnalyzerCheckNamePrefix ++ c) = true)
    ∧ (∀ c, c ∈ u → startswith c "core" = true →
        getCheckersControlList u F ≠ [] →
        (c, true) ∈ getCheckersControlList u F) := by
  by_cases hE : u.any
      (fun CheckName =>
        !(startswith CheckName "debug") &&
          F (AnalyzerCheckNamePrefix ++ CheckName)) = true
  · have hlist : getCheckersControlList u F
        = (u.filter (fun CheckName =>
            startswith CheckName "core" ||
              (!(startswith CheckName "debug") &&
                F (AnalyzerCheckNamePrefix ++ CheckName)))).map
            (fun CheckName => (CheckName, true)) := by
      simp [getCheckersControlList, hE]
    constructor
    · constructor
      · intro _
        obtain ⟨c, hc, hp⟩ := List.any_eq_true.mp hE
        simp only [Bool.and_eq_true, Bool.not_eq_true'] at hp
        exact ⟨c, hc, hp.1, hp.2⟩
      · rintro ⟨c, hc, h1, h2⟩
        rw [hlist]
        have hcmem : c ∈ u.filter (fun CheckName =>
            startswith CheckName "core" ||
              (!(startswith CheckName "debug") &&
                F (AnalyzerCheckNamePrefix ++ CheckName))) :=
          List.mem_filter.mpr ⟨hc, by simp [h1, h2]⟩
        exact List.ne_nil_of_mem (List.mem_map_of_mem _ hcmem)
    · intro c hc hcore _
      rw [hlist]
      apply List.mem_map_of_mem
      exact List.mem_filter.mpr ⟨hc, by simp [hcore]⟩
  · have hE2 : u.any
        (fun CheckName =>
          !(startswith CheckName "debug") &&
            F (AnalyzerCheckNamePrefix ++ CheckName)) = false := by
      simpa using hE
    have hlist : getCheckersControlList u F = [] := by
      simp [getCheckersControlList, hE2]
    constructor
    · rw [hlist]
      constructor
      · intro hne
        exact absurd rfl hne
      · rintro ⟨c, hc, h1, h2⟩
        have hfa := List.any_eq_false.mp hE2 c hc
        simp [h1, h2] at hfa
    · intro c hc hcore hne
      rw [hlist] at hne
      exact absurd rfl hne

/-- C3 witness: in the sample universe where only the prefixed unix.API
checker passes the filter, the analyzer is enabled and the core.Null
checker is force-included in the control list. -/
theorem analyzer_enable_amended_witness :
    ("core.Null", true) ∈ getCheckersControlList sampleUniverse sampleFilter :=
  (analyzer_enable_amended sampleUniverse sampleFilter).2
    "core.Null" (by decide) (by decide) (by decide)

/-- C4 counterexample: getCheckNames is not a pure filter: with the sample
universe and the filter that enables only the prefixed unix.API checker,
the returned inventory contains clang-analyzer-core.Null although the
filter does not enable that name. -/
theorem check_names_pure_filter_cex :
    "clang-analyzer-core.Null"
        ∈ getCheckNames [] sampleUniverse sampleFilter
    ∧ sampleFilter "clang-analyzer-core.Null" = false := by
  constructor
  · simp only [getCheckNames, List.mem_mergeSort]
    decide
  · decide

/-- C4 amended: getCheckNames returns, in lexicographically sorted order,
exactly the registered factory names passing the filter together with the
analyzer-prefixed names of every checkers-control-list entry (the latter
may include force-enabled core checkers that do not pass the filter). -/
theorem check_names_amended (CheckFactories StaticAnalyzerChecks : List String)
    (Filter : String → Bool) :
    List.Pairwise (fun a b => a ≤ b)
        (getCheckNames CheckFactories StaticAnalyzerChecks Filter)
    ∧ (getCheckNames CheckFactories StaticAnalyzerChecks Filter).Perm
        (CheckFactories.filter Filter
          ++ (getCheckersControlList StaticAnalyzerChecks Filter).map
              (fun AnalyzerCheck => AnalyzerCheckNamePrefix
                ++ AnalyzerCheck.1)) := by
  constructor
  · have hs := @List.sorted_mergeSort String
      (fun a b => decide (a ≤ b))
      (fun a b c hab hbc => by
        simp only [decide_eq_true_eq] at hab hbc ⊢
        exact le_trans hab hbc)
      (fun a b => by
        simp only [Bool.or_eq_true, decide_eq_true_eq]
        exact le_total a b)
      (CheckFactories.filter (fun Name => Filter Name)
        ++ (getCheckersControlList StaticAnalyzerChecks Filter).map
            (fun AnalyzerCheck => AnalyzerCheckNamePrefix
              ++ AnalyzerCheck.1))
    exact hs.imp (fun hab => by simpa using hab)
  · exact List.mergeSort_perm _ _

/-- C1 counterexample: on a single diagnostic with one applicable fix, a
real run ends with AppliedFixes one while a dry run ends with
AppliedFixes zero, so the ledger counts are not identical. -/
theorem dry_run_parity_cex :
    (handleErrors [sampleError1] false).1.AppliedFixes
      ≠ (handleErrors [sampleError1] true).1.AppliedFixes := by
  decide

/-- C1 amended: TotalFixes is identical between a dry run and a real run;
with writeEnabled false AppliedFixes stays zero (would-be-applied edits
are not counted) and Finish leaves every file content unchanged. -/
theorem dry_run_parity_amended (Errors : List ClangTidyError)
    (fs : String → String) :
    (handleErrors Errors false).1.TotalFixes
        = (handleErrors Errors true).1.TotalFixes
    ∧ (handleErrors Errors false).1.AppliedFixes = 0
    ∧ (ErrorReporter.Finish (handleErrors Errors false).1 fs).fs = fs := by
  refine ⟨?_, ?_, ?_⟩
  · exact (run_total Errors (ErrorReporter.init false) []).trans
      (run_total Errors (ErrorReporter.init true) []).symm
  · exact run_dry_applied Errors (ErrorReporter.init false) [] rfl
  · have hA : (handleErrors Errors false).1.ApplyFixes = false :=
      run_flag Errors (ErrorReporter.init false) []
    simp [ErrorReporter.Finish, hA]

/-- C2 counterexample: in a dry run, a diagnostic with one Replacement
produces no companion fix-status note at all, so the notes are not
emitted regardless of the writeEnabled flag. -/
theorem fix_notes_regardless_cex :
    ((handleErrors [sampleError1] false).2.filter
        OutputEntry.isFixStatusNote).length = 0
    ∧ sampleError1.Fix.length = 1 := by
  decide

/-- C2 amended: when writeEnabled is true, reportDiagnostic emits exactly
one companion fix-status note per Replacement, in edit order, at the
edit's start location; when writeEnabled is false it emits none. -/
theorem fix_notes_amended (rep : ErrorReporter) (Error : ClangTidyError) :
    (rep.ApplyFixes = true →
      (((rep.reportDiagnostic Error).2).filter
          OutputEntry.isFixStatusNote).map OutputEntry.entryLoc
        = Error.Fix.map (fun F => getLocation F.FilePath F.Offset))
    ∧ (rep.ApplyFixes = false →
      ((rep.reportDiagnostic Error).2).filter
        OutputEntry.isFixStatusNote = []) := by
  constructor
  · intro h
    rw [reportDiagnostic_fixNotes, List.map_map]
    have hl := processFixes_locs Error.Fix rep [] h
    simpa [Function.comp_def, entryLoc_fixNote] using hl
  · intro h
    rw [reportDiagnostic_fixNotes, processFixes_dry _ _ _ h]
    simp

/-- C2 witness: with writeEnabled true, the sample diagnostic's single
edit yields exactly one fix-status note located at the edit's start
offset 10 of file a.cc. -/
theorem fix_notes_amended_witness :
    ((((ErrorReporter.init true).reportDiagnostic sampleError1).2).filter
        OutputEntry.isFixStatusNote).map OutputEntry.entryLoc
      = [some ("a.cc", 10)] := by
  have h := (fix_notes_amended (ErrorReporter.init true) sampleError1).1 rfl
  exact h.trans (by decide)

/-- C6: the applied-fixes summary line is printed exactly when ApplyFixes
is set and at least one Replacement was attempted, and it then reports
the final AppliedFixes and TotalFixes counters. -/
theorem fix_summary_iff (Fix : Bool) (Errors : List ClangTidyError)
    (fs : String → String) :
    (ErrorReporter.Finish (handleErrors Errors Fix).1 fs).summary
      = if Fix = true ∧ 0 < totalFixCount Errors then
          some ((handleErrors Errors Fix).1.AppliedFixes,
            totalFixCount Errors)
        else none := by
  have hA : (handleErrors Errors Fix).1.ApplyFixes = Fix :=
    run_flag Errors (ErrorReporter.init Fix) []
  have hT : (handleErrors Errors Fix).1.TotalFixes = totalFixCount Errors := by
    have h0 := run_total Errors (ErrorReporter.init Fix) []
    simpa [handleErrors, ErrorReporter.init] using h0
  by_cases hc : Fix = true ∧ 0 < totalFixCount Errors
  · obtain ⟨hc1, hc2⟩ := hc
    subst hc1
    simp [ErrorReporter.Finish, hA, hT, hc2]
  · simp [ErrorReporter.Finish, hA, hT, hc]

/-- C7: with ApplyFixes set, the accepted edits of any run are pairwise
non-conflicting, and for two diagnostics carrying one conflicting edit
each the earlier edit is applied and the later one is marked failed. -/
theorem first_seen_wins :
    (∀ Errors : List ClangTidyError,
      List.Pairwise (fun a b => conflictsWith a b = false)
        ((handleErrors Errors true).1).Rewrite.accepted)
    ∧ (∀ (D1 D2 : ClangTidyError) (F1 F2 : Replacement),
        D1.Fix = [F1] → D2.Fix = [F2] → conflictsWith F1 F2 = true →
        (((handleErrors [D1, D2] true).2).filter
            OutputEntry.isFixStatusNote).map OutputEntry.fixApplied
          = [true, false]) := by
  constructor
  · intro Errors
    exact run_pairwise Errors (ErrorReporter.init true) []
      (by simp [ErrorReporter.init])
  · intro D1 D2 F1 F2 h1 h2 hconf
    simp [handleErrors, ErrorReporter.run, ErrorReporter.reportDiagnostic,
      ErrorReporter.processFixes, applyFix, ErrorReporter.init, h1, h2,
      hconf, List.filter_append, List.filter_map, Function.comp_def,
      isFixStatusNote_diag, isFixStatusNote_fixNote, isFixStatusNote_note,
      fixApplied_fixNote]

/-- C7 witness: the spec's own scenario: edit ranges 10 to 20 and 15 to
25 on the same file, reported in that order, give an applied first edit
and a failed second edit. -/
theorem first_seen_wins_witness :
    (((handleErrors [sampleError1, sampleError2] true).2).filter
        OutputEntry.isFixStatusNote).map OutputEntry.fixApplied
      = [true, false] :=
  first_seen_wins.2 sampleError1 sampleError2 sampleFix1 sampleFix2
    rfl rfl (by decide)

/-- C8: ledger invariant: after reporting any error list, TotalFixes
equals the total number of attached Replacements, AppliedFixes never
exceeds TotalFixes, and AppliedFixes equals both the number of edits
accepted into the rewrite buffers and the number of success-reporting
fix-status notes. -/
theorem ledger_invariant (Fix : Bool) (Errors : List ClangTidyError) :
    (handleErrors Errors Fix).1.TotalFixes = totalFixCount Errors
    ∧ (handleErrors Errors Fix).1.AppliedFixes
        ≤ (handleErrors Errors Fix).1.TotalFixes
    ∧ (handleErrors Errors Fix).1.AppliedFixes
        = ((handleErrors Errors Fix).1).Rewrite.accepted.length
    ∧ (handleErrors Errors Fix).1.AppliedFixes
        = (((handleErrors Errors Fix).2).filter
            OutputEntry.fixApplied).length := by
  have hT : (handleErrors Errors Fix).1.TotalFixes = totalFixCount Errors := by
    have h0 := run_total Errors (ErrorReporter.init Fix) []
    simpa [handleErrors, ErrorReporter.init] using h0
  obtain ⟨extra, ha, hb, hc⟩ := run_growth Errors (ErrorReporter.init Fix) []
  have ha2 : (handleErrors Errors Fix).1.Rewrite.accepted = extra := by
    simpa [handleErrors, ErrorReporter.init] using ha
  have hb2 : (handleErrors Errors Fix).1.AppliedFixes = extra.length := by
    simpa [handleErrors, ErrorReporter.init] using hb
  have hn : (handleErrors Errors Fix).1.AppliedFixes
      = (((handleErrors Errors Fix).2).filter
          OutputEntry.fixApplied).length := by
    have h0 := run_applied_notes Errors (ErrorReporter.init Fix) []
    simpa [handleErrors, ErrorReporter.init] using h0
  refine ⟨hT, ?_, ?_, hn⟩
  · rw [hT, hb2]
    exact hc
  · rw [hb2, ha2]

theorem foldl_emit {α β : Type} (f : α → β) (l : List α) :
    ∀ out : List β,
      l.foldl (fun o a => o ++ [f a]) out = out ++ l.map f := by
  induction l with
  | nil => intro out; simp
  | cons a l ih => intro out; simp [ih]

theorem foldl_flat {α β : Type} (g : α → List β) (l : List α) :
    ∀ out : List β,
      l.foldl (fun o a => o ++ g a) out = out ++ l.flatMap g := by
  induction l with
  | nil => intro out; simp
  | cons a l ih => intro out; simp [ih]

/-- C5: FlushDiagnosticsImpl emits, for every consumed path diagnostic in
input order, exactly one primary Warning diagnostic whose message is the
short description and whose check name is the analyzer prefix followed
by the checker id, followed by one Note per flattened path step in path
order. -/
theorem analyzer_flush_emission (Diags : List PathDiagnostic) :
    FlushDiagnosticsImpl Diags = Diags.flatMap analyzerEmission := by
  simp only [FlushDiagnosticsImpl, foldl_emit, List.append_assoc]
  rw [foldl_flat]
  simp only [List.nil_append]
  congr 1

end ClangTidy
